import Mathlib

/-!
Shallow embedding of the quote-detection core of
`src/flopo_quote_detection/find_quotes.py`.

Tokens form a document; spaCy capabilities used by the source
(`token.subtree`, `token.children`, `doc.user_data`) are modelled as
explicit functions over the token list.  Python loops are embedded as
structurally recursive functions whose fuel equals the exact number of
iterations the loop can make; mutable `Author` objects shared between
quotes are modelled as a heap (`List (List Nat)`) of token-index lists
addressed by author ids, so aliasing is explicit.  Exceptions that the
source catches per candidate are modelled as `Except`/`Option` failures.
-/

deriving instance DecidableEq for Except

/-- Python's `str.startswith`, as a structurally recursive function on
the character lists (the core library version does not reduce in the
kernel). -/
def starts_with (s p : String) : Bool := List.isPrefixOf p.data s.data

/-- Digit-sequence accumulator for `str_to_int`. -/
def digits_to_nat (acc : Nat) : List Char → Option Nat
  | [] => some acc
  | c :: cs =>
    if c.isDigit then digits_to_nat (acc * 10 + (c.toNat - 48)) cs else none

/-- Python's `int(...)` on a decimal string: an optional minus sign
followed by at least one digit; anything else raises, modelled as
`none`. -/
def str_to_int (s : String) : Option Int :=
  match s.data with
  | [] => none
  | '-' :: cs =>
    match cs with
    | [] => none
    | _ => (digits_to_nat 0 cs).map (fun n => -(n : Int))
  | c :: cs => (digits_to_nat 0 (c :: cs)).map (fun n => (n : Int))

/-- One parsed token.  Field names follow spaCy's trailing-underscore
string attributes used in the source (`lemma_`, `pos_`, `dep_`, `norm_`). -/
structure Token where
  word : String
  lemma_ : String
  pos_ : String
  dep_ : String
  head : Nat
  norm_ : String
deriving DecidableEq

def defaultToken : Token := ⟨"", "", "", "", 0, ""⟩

/-- A document: ordered tokens plus the `user_data` identifier columns
(`articleId`, `paragraphId`, `sentenceId`, `wordId`) of `read_docs`. -/
structure Doc where
  toks : List Token
  articleId : String
  paragraphId : List String
  sentenceId : List String
  wordId : List String
deriving DecidableEq

def docLen (d : Doc) : Nat := d.toks.length

def tokAt (d : Doc) (i : Nat) : Token := d.toks.getD i defaultToken

def lemmaAt (d : Doc) (i : Nat) : String := (tokAt d i).lemma_

def posAt (d : Doc) (i : Nat) : String := (tokAt d i).pos_

def depAt (d : Doc) (i : Nat) : String := (tokAt d i).dep_

def headAt (d : Doc) (i : Nat) : Nat := (tokAt d i).head

def normAt (d : Doc) (i : Nat) : String := (tokAt d i).norm_

def parIdAt (d : Doc) (i : Nat) : String := d.paragraphId.getD i ""

def sentIdAt (d : Doc) (i : Nat) : String := d.sentenceId.getD i ""

def wordIdAt (d : Doc) (i : Nat) : String := d.wordId.getD i ""

/-- spaCy `token.children`: tokens whose head is `t`, in document order
(the root points at itself and is not its own child). -/
def children_of (d : Doc) (t : Nat) : List Nat :=
  (List.range (docLen d)).filter (fun c => headAt d c = t ∧ c ≠ t)

/-- k-fold application of the head function. -/
def headIter (d : Doc) (t : Nat) : Nat → Nat
  | 0 => t
  | k + 1 => headAt d (headIter d t k)

/-- spaCy subtree membership: `t` is in the subtree of `h` iff some
head-chain from `t` reaches `h` (within `docLen` steps, which suffices
for any well-formed dependency tree). -/
def inSubtree (d : Doc) (h t : Nat) : Bool :=
  (List.range (docLen d + 1)).any (fun k => headIter d t k = h)

/-- spaCy `token.subtree`: the subtree of `h` in document order. -/
def subtree (d : Doc) (h : Nat) : List Nat :=
  (List.range (docLen d)).filter (fun t => inSubtree d h t)

/-- The lexicon loaded from the rules file; only `MESSAGE_NOUNS` is used. -/
structure Lexicon where
  MESSAGE_NOUNS : List String
deriving DecidableEq

/-- Model of `extract_flat_name`: the token followed by the recursive flattening of
its `flat:name` children.  The fuel bounds the recursion depth; callers
pass `docLen`, enough for any well-formed tree. -/
def extract_flat_name_aux (d : Doc) : Nat → Nat → List Nat
  | 0, t => [t]
  | fuel + 1, t =>
      t :: ((children_of d t).filter (fun c => depAt d c = "flat:name")).flatMap
        (extract_flat_name_aux d fuel)

def extract_flat_name (d : Doc) (t : Nat) : List Nat :=
  extract_flat_name_aux d (docLen d) t

/-- Model of `extract_author`: message-noun redirection, then appositive
title+name redirection, then name flattening. -/
def extract_author (d : Doc) (lex : Lexicon) (t : Nat) : List Nat :=
  let t1 := if lemmaAt d t ∈ lex.MESSAGE_NOUNS then
      match (children_of d t).find?
          (fun c => depAt d c = "nmod:poss" ∨ depAt d c = "nmod:gsubj") with
      | some c => c
      | none => t
    else t
  let t2 := if posAt d t1 = "NOUN" then
      match (children_of d t1).find?
          (fun c => posAt d c = "PROPN" ∧ depAt d c = "appos") with
      | some c => c
      | none => t1
    else t1
  extract_flat_name d t2

/-- Model of `extract_authors`: the author head plus each `conj` sibling. -/
def extract_authors (d : Doc) (lex : Lexicon) (t : Nat) : List (List Nat) :=
  extract_author d lex t ::
    ((children_of d t).filter (fun c => depAt d c = "conj")).map
      (extract_author d lex)

/-- Model of `author_to_str`: lemmas of the author's tokens joined by spaces. -/
def author_to_str (d : Doc) (name : List Nat) : String :=
  " ".intercalate (name.map (lemmaAt d))

/-- Loop body of `_quote_between`: scan indices `i, i+1, ...` for a
quotation mark; the fuel is the number of remaining iterations
(`max - i` in the source). -/
def quote_scan (d : Doc) : Nat → Nat → Option Nat
  | _, 0 => none
  | i, fuel + 1 =>
      if normAt d i = "\"" then some i else quote_scan d (i + 1) fuel

/-- Model of `_quote_between`: first quotation mark strictly inside
`[min a b, max a b)`. -/
def quote_between (d : Doc) (a b : Nat) : Option Nat :=
  quote_scan d (min a b) (max a b - min a b)

/-- Upward branch of `_find_matching_quote`'s loop
(`while i > 0 and i < len(doc)` with `i += 1`); fuel is `len - i`. -/
def scan_up (d : Doc) : Nat → Nat → Option Nat
  | _, 0 => none
  | i, fuel + 1 =>
      if 0 < i ∧ i < docLen d then
        (if normAt d i = "\"" then some i else scan_up d (i + 1) fuel)
      else none

/-- Downward branch of `_find_matching_quote`'s loop (`i -= 1`); the
loop condition `i > 0` makes index 0 unreachable, which is mirrored by
recursing on `i` and answering `none` at 0. -/
def scan_down (d : Doc) : Nat → Option Nat
  | 0 => none
  | i + 1 =>
      if i + 1 < docLen d then
        (if normAt d (i + 1) = "\"" then some (i + 1) else scan_down d i)
      else none

/-- Model of `_find_matching_quote`: the source only ever calls it with
direction `1` or `-1`. -/
def find_matching_quote (d : Doc) (start : Nat) (dir : Int) : Option Nat :=
  if dir = 1 then scan_up d (start + 1) (docLen d - (start + 1))
  else scan_down d (start - 1)

/-- Loop of `_find_par_start`: walk left while the preceding token has
the same paragraph id as the starting token. -/
def par_start_aux (d : Doc) (pid : String) : Nat → Nat
  | 0 => 0
  | t + 1 => if parIdAt d t = pid then par_start_aux d pid t else t + 1

def find_par_start (d : Doc) (t : Nat) : Nat :=
  par_start_aux d (parIdAt d t) t

/-- A quote-pattern match as built in `find_matches`. -/
structure QuoteMatch where
  cue : Nat
  author_head : Nat
  prop_head : Nat
  pat_id : String
deriving DecidableEq

/-- Step 1 of `extract_proposition`: tokens of the proposition head's
subtree that are outside the cue's subtree and not punctuation, unless
the proposition head attaches directly to the cue (then everything is
kept). -/
def proposition_tokens (d : Doc) (m : QuoteMatch) : List Nat :=
  (subtree d m.prop_head).filter
    (fun t => (¬ inSubtree d m.cue t ∧ depAt d t ≠ "punct")
      ∨ headAt d m.prop_head = m.cue)

/-- Quotation-mark override of `extract_proposition`: if a quotation
mark `q` lies between cue and proposition head and a matching mark `q2`
is found in the direction away from the cue, and the proposition head's
index is in Python's `range(min(q, q2), max(q, q2))`, the span becomes
`[min, max]` with `direct = true`. -/
def prop_override (d : Doc) (cue prop : Nat) (span : Nat × Nat)
    (direct : Bool) : (Nat × Nat) × Bool :=
  match quote_between d cue prop with
  | none => (span, direct)
  | some q =>
    match find_matching_quote d q (if cue < prop then 1 else -1) with
    | none => (span, direct)
    | some q2 =>
      if min q q2 ≤ prop ∧ prop < max q q2 then
        ((min q q2, max q q2), true)
      else (span, direct)

/-- Model of `extract_proposition`: candidate tokens, the hyphen extension for
the `quote-2` pattern, then the quotation-mark override.  The raised
exception of the source is the `Except.error` case. -/
def extract_proposition (d : Doc) (m : QuoteMatch) :
    Except String ((Nat × Nat) × Bool) :=
  match proposition_tokens d m with
  | [] => Except.error "No proposition extracted"
  | t0 :: ts =>
    let e0 := (t0 :: ts).getLastD t0
    let sd : Nat × Bool :=
      if m.pat_id = "quote-2" then
        let ps := find_par_start d m.prop_head
        if normAt d ps = "-" then (ps, true) else (t0, false)
      else (t0, false)
    Except.ok (prop_override d m.cue m.prop_head (sd.1, e0) sd.2)

/-- A `Quote` value.  `authorIds` are indices into the author heap (the
source's mutable shared `Author` objects); `prop` is the inclusive
token-index span of the proposition; the remaining fields are the
provenance carried in the source's `match` field. -/
structure Quote where
  authorIds : List Nat
  prop : Nat × Nat
  direct : Bool
  cue : Option Nat
  propHead : Option Nat
  authorHead : Nat
  patId : String
deriving DecidableEq

/-- One entry of the external matcher's output: a pattern identifier and
the matched token indices. -/
structure RawMatch where
  patId : String
  toks : List Nat
deriving DecidableEq

/-- State threaded through `find_matches`: the author heap plus the
collected quotes and name mentions. -/
structure FMState where
  heap : List (List Nat)
  quotes : List Quote
  names : List (List Nat)
deriving DecidableEq

/-- One iteration of `find_matches`.  A failing `extract_proposition`
(and a too-short token list, which would raise `IndexError`) is caught
by the source's `try`/`except` and leaves the state unchanged. -/
def find_matches_step (d : Doc) (lex : Lexicon) (s : FMState)
    (r : RawMatch) : FMState :=
  if starts_with r.patId ("quote") then
    match r.toks with
    | t0 :: t1 :: t2 :: _ =>
      match extract_proposition d ⟨t0, t1, t2, r.patId⟩ with
      | Except.error _ => s
      | Except.ok (span, direct) =>
        let authors := extract_authors d lex t1
        let ids := List.range' s.heap.length authors.length
        { heap := s.heap ++ authors,
          quotes := s.quotes
            ++ [⟨ids, span, direct, some t0, some t2, t1, r.patId⟩],
          names := s.names }
    | _ => s
  else if starts_with r.patId ("name") then
    match r.toks with
    | t0 :: _ => { s with names := s.names ++ [extract_flat_name d t0] }
    | _ => s
  else s

def find_matches (d : Doc) (lex : Lexicon) (ms : List RawMatch) : FMState :=
  ms.foldl (find_matches_step d lex) ⟨[], [], []⟩

/-- Scan of `_next_paragraph` that finds the first token whose paragraph
id parses to `target`; a failing `int(...)` raises and is modelled as
`none` (the caller catches it).  Fuel is `docLen - i`. -/
def np_scan_start (d : Doc) (target : Int) : Nat → Nat → Option Nat
  | _, 0 => none
  | i, fuel + 1 =>
    match str_to_int (parIdAt d i) with
    | none => none
    | some p =>
      if p = target then some i else np_scan_start d target (i + 1) fuel

/-- Scan of `_next_paragraph` that walks to the end of the paragraph
whose id parses to `target`; exhausted fuel is the source's
`j >= len(doc)` break. -/
def np_scan_end (d : Doc) (target : Int) : Nat → Nat → Option Nat
  | j, 0 => some j
  | j, fuel + 1 =>
    match str_to_int (parIdAt d j) with
    | none => none
    | some p =>
      if p = target then np_scan_end d target (j + 1) fuel else some j

/-- Model of `_next_paragraph`: the half-open token range `[i, j)` of the
paragraph whose integer id is one more than that of `t`'s paragraph. -/
def next_paragraph (d : Doc) (t : Nat) : Option (Nat × Nat) :=
  match str_to_int (parIdAt d t) with
  | none => none
  | some prev =>
    match np_scan_start d (prev + 1) t (docLen d - t) with
    | none => none
    | some i =>
      match np_scan_end d (prev + 1) i (docLen d - i) with
      | none => none
      | some j => some (i, j)

/-- Membership in `quote_tokens`: the union of the already-recognized
proposition spans, computed once before the continuation pass. -/
def quote_token_set (qs : List Quote) (k : Nat) : Bool :=
  qs.any (fun q => q.prop.1 ≤ k ∧ k ≤ q.prop.2)

/-- Body of the loop of `quotes_from_paragraphs` for one source quote:
any exception (including unparsable ids) is caught and yields nothing. -/
def cont_for (d : Doc) (claimed : Nat → Bool) (q : Quote) : Option Quote :=
  match next_paragraph d q.prop.2 with
  | none => none
  | some (i, j) =>
    match str_to_int (sentIdAt d i), str_to_int (sentIdAt d q.prop.2) with
    | some s1, some s2 =>
      if s1 = s2 + 1
          ∧ (normAt d i = "-" ∨ (normAt d i = "\"" ∧ normAt d (j - 1) = "\""))
          ∧ (List.range' i (j - i)).any claimed = false then
        some { authorIds := q.authorIds, prop := (i, j - 1), direct := true,
               cue := some i, propHead := none, authorHead := q.authorHead,
               patId := "paragraph" }
      else none
    | _, _ => none

def quotes_from_paragraphs (d : Doc) (qs : List Quote) : List Quote :=
  qs.filterMap (cont_for d (quote_token_set qs))

/-- Events of the resolver's merged stream. -/
inductive REv where
  | name (n : List Nat)
  | quote (q : Quote)
deriving DecidableEq

/-- Resolver state: the author heap and the `names_by_last` mapping. -/
structure RState where
  heap : List (List Nat)
  map : List (String × List Nat)
deriving DecidableEq

/-- Dictionary write: replace the first binding of `k` or append one. -/
def mapSet (m : List (String × List Nat)) (k : String) (v : List Nat) :
    List (String × List Nat) :=
  match m with
  | [] => [(k, v)]
  | (k', v') :: rest =>
    if k' = k then (k, v) :: rest else (k', v') :: mapSet rest k v

/-- Resolution of one `Author`: if its rendering is a key of the
mapping, its token list is replaced in place (a heap write) and the
pronoun key is rebound to the mapped list. -/
def resolve_author (d : Doc) (st : RState) (aid : Nat) : RState :=
  match st.map.lookup (author_to_str d (st.heap.getD aid [])) with
  | some v => { heap := st.heap.set aid v, map := mapSet st.map "hän" v }
  | none => st

/-- One event of `resolve_authors`: a name mention registers its
last-token lemma and rebinds the pronoun key; a quote resolves each of
its authors in order. -/
def resolve_step (d : Doc) (st : RState) (ev : Nat × REv) : RState :=
  match ev.2 with
  | REv.name n =>
    let m1 := mapSet st.map (lemmaAt d (n.getLastD 0)) n
    { st with map := mapSet m1 "hän" n }
  | REv.quote q => q.authorIds.foldl (resolve_author d) st

def runEvents (d : Doc) (st : RState) (evs : List (Nat × REv)) : RState :=
  evs.foldl (resolve_step d) st

/-- Key order of the resolver's event sort (Python's stable
`sort(key=itemgetter(0))`). -/
def evLE (a b : Nat × REv) : Prop := a.1 ≤ b.1

instance : DecidableRel evLE := fun a b => Nat.decLe a.1 b.1

instance : IsTotal (Nat × REv) evLE := ⟨fun a b => Nat.le_total a.1 b.1⟩

instance : IsTrans (Nat × REv) evLE := ⟨fun _ _ _ => Nat.le_trans⟩

/-- Model of `resolve_authors`: quote events (keyed by proposition start) and
name events (keyed by first-token index) are merged into one ascending
stream and processed left to right over an initially empty mapping. -/
def resolve_authors (d : Doc) (heap : List (List Nat)) (quotes : List Quote)
    (names : List (List Nat)) : RState :=
  let evs := quotes.map (fun q => (q.prop.1, REv.quote q))
    ++ names.map (fun n => (n.headD 0, REv.name n))
  runEvents d ⟨heap, []⟩ (List.insertionSort evLE evs)

/-- Sort order of `find_quotes` (ascending proposition start). -/
def propLE (a b : Quote) : Prop := a.prop.1 ≤ b.prop.1

instance : DecidableRel propLE := fun a b => Nat.decLe a.prop.1 b.prop.1

instance : IsTotal Quote propLE := ⟨fun a b => Nat.le_total a.prop.1 b.prop.1⟩

instance : IsTrans Quote propLE := ⟨fun _ _ _ => Nat.le_trans⟩

/-- Per-document body of `find_quotes`: direct matches, paragraph
continuations, the stable sort by proposition start, and (optionally)
author resolution.  Returns the ordered quotes and the final author
heap. -/
def find_quotes_doc (d : Doc) (lex : Lexicon) (ms : List RawMatch)
    (resolve : Bool) : List Quote × List (List Nat) :=
  let m := find_matches d lex ms
  let doc_quotes := m.quotes ++ quotes_from_paragraphs d m.quotes
  let sorted := List.insertionSort propLE doc_quotes
  let heap2 := if resolve ∧ sorted ≠ [] then
      (resolve_authors d m.heap sorted m.names).heap
    else m.heap
  (sorted, heap2)

/-- One emitted CSV record (all fields rendered as strings, as in
`quote_to_dict` / `write_results`). -/
structure QRecord where
  articleId : String
  startSentenceId : String
  startWordId : String
  endSentenceId : String
  endWordId : String
  author : String
  authorHead : String
  direct : String
deriving DecidableEq

def quote_to_dict (d : Doc) (heap : List (List Nat)) (q : Quote) : QRecord :=
  { articleId := d.articleId,
    startSentenceId := sentIdAt d q.prop.1,
    startWordId := wordIdAt d q.prop.1,
    endSentenceId := sentIdAt d q.prop.2,
    endWordId := wordIdAt d q.prop.2,
    author := "|".intercalate (q.authorIds.map
      (fun aid => author_to_str d (heap.getD aid []))),
    authorHead := sentIdAt d q.authorHead ++ "-" ++ wordIdAt d q.authorHead,
    direct := if q.direct then "true" else "false" }

def find_quotes_records (d : Doc) (lex : Lexicon) (ms : List RawMatch)
    (resolve : Bool) : List QRecord :=
  let out := find_quotes_doc d lex ms resolve
  out.1.map (quote_to_dict d out.2)

/-- A document with its `wordId` column replaced. -/
def setWordId (d : Doc) (w : List String) : Doc := { d with wordId := w }

/-- Projection of a record to the fields that do not mention `wordId`. -/
def stripWordFields (r : QRecord) : String × String × String × String × String :=
  (r.articleId, r.startSentenceId, r.endSentenceId, r.author, r.direct)

/-- Helper to build a token whose word equals its lemma. -/
def tk (lem pos dep : String) (head : Nat) (norm : String) : Token :=
  ⟨lem, lem, pos, dep, head, norm⟩

/-- Document for the quotation-mark-override scenario: cue at 5,
proposition head at 8 (with subtree {7, 8, 9}), quotation marks at
6 and 10. -/
def exDoc1 : Doc :=
  { toks := [tk "w" "X" "d" 0 "w", tk "w" "X" "d" 1 "w",
      tk "w" "X" "d" 2 "w", tk "w" "X" "d" 3 "w", tk "w" "X" "d" 4 "w",
      tk "sanoa" "VERB" "root" 5 "sanoo", tk "\"" "PUNCT" "d" 6 "\"",
      tk "w" "X" "d" 8 "w", tk "w" "X" "d" 8 "w", tk "w" "X" "d" 8 "w",
      tk "\"" "PUNCT" "d" 10 "\""],
    articleId := "a0",
    paragraphId := List.replicate 11 "1",
    sentenceId := List.replicate 11 "1",
    wordId := List.replicate 11 "1" }

/-- Two-paragraph document: a direct quote in paragraph 1 and a
hyphen-initial continuation paragraph 2. -/
def exDoc : Doc :=
  { toks := [tk "matti" "PROPN" "nsubj" 1 "Matti",
      tk "sanoa" "VERB" "root" 1 "sanoo",
      tk "tulla" "VERB" "ccomp" 1 "tulee",
      tk "-" "PUNCT" "punct" 3 "-",
      tk "hyvä" "ADJ" "root" 4 "hyvä",
      tk "." "PUNCT" "punct" 5 "."],
    articleId := "a1",
    paragraphId := ["1", "1", "1", "2", "2", "2"],
    sentenceId := ["1", "1", "1", "2", "2", "2"],
    wordId := ["1", "2", "3", "1", "2", "3"] }

def exLex : Lexicon := ⟨[]⟩

def exMs : List RawMatch := [⟨"quote-1", [1, 0, 2]⟩]

/-- The direct quote `find_matches` produces on `exDoc`. -/
def exQ0 : Quote := ⟨[0], (2, 2), false, some 1, some 2, 0, "quote-1"⟩

/-- The continuation quote produced on `exDoc`. -/
def exCont : Quote := ⟨[0], (3, 5), true, some 3, none, 0, "paragraph"⟩

/-- Variant of `exDoc` with its paragraph identifiers injectively renamed
(`"1" ↦ "1"`, `"2" ↦ "5"`). -/
def exDocRen : Doc := { exDoc with paragraphId := ["1", "1", "1", "5", "5", "5"] }

/-- Document whose third token's lemma contains a space, so a resolved
author's rendering collides with that name's key on a second pass. -/
def exDoc7 : Doc :=
  { toks := [tk "a" "PROPN" "d" 0 "w", tk "b" "PROPN" "d" 1 "w",
      tk "a b" "PROPN" "d" 2 "w", tk "b" "PRON" "d" 3 "w",
      tk "z" "X" "d" 4 "w"],
    articleId := "a7",
    paragraphId := List.replicate 5 "1",
    sentenceId := List.replicate 5 "1",
    wordId := List.replicate 5 "1" }

def exQ7 : Quote := ⟨[0], (4, 4), false, none, none, 0, "q"⟩

def exNames7 : List (List Nat) := [[0, 1], [2]]

/-- Document for the resolver-stability witness. -/
def exDoc7b : Doc :=
  { toks := [tk "maija" "PROPN" "d" 0 "w", tk "virtanen" "PROPN" "d" 1 "w",
      tk "virtanen" "PROPN" "d" 2 "w"],
    articleId := "a7b",
    paragraphId := List.replicate 3 "1",
    sentenceId := List.replicate 3 "1",
    wordId := List.replicate 3 "1" }

def exQ7b : Quote := ⟨[0], (2, 2), false, none, none, 0, "q"⟩

/-- Document whose only quotation mark below the scan start sits at
token 0. -/
def exDoc10 : Doc :=
  { toks := [tk "\"" "PUNCT" "d" 0 "\"", tk "x" "X" "d" 1 "x",
      tk "\"" "PUNCT" "d" 2 "\"", tk "x" "X" "d" 3 "x"],
    articleId := "a10",
    paragraphId := List.replicate 4 "1",
    sentenceId := List.replicate 4 "1",
    wordId := List.replicate 4 "1" }

/-- Document for the pronoun-binding witness. -/
def exDoc3 : Doc :=
  { toks := [tk "x" "PRON" "d" 0 "w", tk "x" "PROPN" "d" 1 "w",
      tk "z" "X" "d" 2 "w"],
    articleId := "a3",
    paragraphId := List.replicate 3 "1",
    sentenceId := List.replicate 3 "1",
    wordId := List.replicate 3 "1" }

def exQ3 : Quote := ⟨[0], (2, 2), false, none, none, 0, "q"⟩

/-- Document on which `extract_proposition` fails: the proposition
head's subtree is fully inside the cue's subtree. -/
def exDoc4 : Doc :=
  { toks := [tk "sanoa" "VERB" "root" 0 "w", tk "w" "X" "d" 2 "w",
      tk "w" "X" "d" 0 "w"],
    articleId := "a4",
    paragraphId := List.replicate 3 "1",
    sentenceId := List.replicate 3 "1",
    wordId := List.replicate 3 "1" }

/-- Whether index `j` lies in the direction `_find_matching_quote`
searches from `start`. -/
def in_scan_dir (start : Nat) (dir : Int) (j : Nat) : Bool :=
  if dir = 1 then start < j else j < start

/-- The invariant claimed in the specification: a quote's proposition
span contains its cue token only in the object-clause case where the
proposition head's own head is the cue. -/
def cue_in_span_ok (d : Doc) (q : Quote) : Bool :=
  match q.cue with
  | none => true
  | some cu =>
    if q.prop.1 ≤ cu ∧ cu ≤ q.prop.2 then
      match q.propHead with
      | none => false
      | some ph => headAt d ph = cu
    else true

/-- Rendering of a quote's authors as in `quote_to_dict`. -/
def render_authors (d : Doc) (heap : List (List Nat)) (q : Quote) : String :=
  "|".intercalate (q.authorIds.map (fun aid => author_to_str d (heap.getD aid [])))

/-- Document with a head two-cycle between tokens 1 and 2, making the
cue a member of the proposition head's subtree. -/
def exDoc2b : Doc :=
  { toks := [tk "w" "X" "d" 0 "w", tk "w" "X" "d" 2 "w", tk "w" "X" "d" 1 "w"],
    articleId := "a2b",
    paragraphId := List.replicate 3 "1",
    sentenceId := List.replicate 3 "1",
    wordId := List.replicate 3 "1" }

theorem lookup_mapSet_self (m : List (String × List Nat)) (k : String)
    (v : List Nat) : (mapSet m k v).lookup k = some v := by
  induction m with
  | nil => simp [mapSet, List.lookup]
  | cons p rest ih =>
    obtain ⟨k', v'⟩ := p
    by_cases h : k' = k
    · simp [mapSet, h, List.lookup]
    · have hb : (k == k') = false := by
        rw [beq_eq_false_iff_ne]
        exact fun he => h he.symm
      simp only [mapSet, if_neg h, List.lookup, hb]
      exact ih

theorem lookup_mapSet_cases (m : List (String × List Nat))
    (k k2 : String) (v w : List Nat)
    (h : (mapSet m k v).lookup k2 = some w) :
    k2 = k ∨ m.lookup k2 = some w := by
  induction m with
  | nil =>
    cases hb : k2 == k with
    | true => exact Or.inl (eq_of_beq hb)
    | false =>
      simp only [mapSet, List.lookup, hb] at h
      exact absurd h (by simp)
  | cons p rest ih =>
    obtain ⟨k', v'⟩ := p
    by_cases hk : k' = k
    · subst hk
      cases hb : k2 == k' with
      | true => exact Or.inl (eq_of_beq hb)
      | false =>
        simp only [mapSet, if_pos rfl, List.lookup, hb] at h
        right
        simp only [List.lookup, hb]
        exact h
    · cases hb : k2 == k' with
      | true =>
        simp only [mapSet, if_neg hk, List.lookup, hb] at h
        right
        simp only [List.lookup, hb]
        exact h
      | false =>
        simp only [mapSet, if_neg hk, List.lookup, hb] at h
        rcases ih h with h1 | h2
        · exact Or.inl h1
        · right
          simp only [List.lookup, hb]
          exact h2

theorem normAt_ge_len (d : Doc) (j : Nat) (h : docLen d ≤ j) :
    normAt d j = "" := by
  unfold normAt tokAt
  rw [List.getD_eq_default _ _ (by simpa [docLen] using h)]
  rfl

theorem quote_scan_some (d : Doc) :
    ∀ (fuel i q : Nat), quote_scan d i fuel = some q →
      i ≤ q ∧ q < i + fuel ∧ normAt d q = "\"" ∧
        ∀ j, i ≤ j → j < q → normAt d j ≠ "\"" := by
  intro fuel
  induction fuel with
  | zero => intro i q h; simp [quote_scan] at h
  | succ n ih =>
    intro i q h
    simp only [quote_scan] at h
    split at h
    next hn =>
      obtain rfl : i = q := by simpa using h
      exact ⟨Nat.le_refl i, by omega, hn, fun j h1 h2 => by omega⟩
    next hn =>
      obtain ⟨h1, h2, h3, h4⟩ := ih (i + 1) q h
      refine ⟨by omega, by omega, h3, fun j hj1 hj2 => ?_⟩
      rcases Nat.eq_or_lt_of_le hj1 with rfl | hj3
      · exact hn
      · exact h4 j hj3 hj2

theorem quote_between_some (d : Doc) (a b q : Nat)
    (h : quote_between d a b = some q) :
    min a b ≤ q ∧ q < max a b ∧ normAt d q = "\"" ∧
      ∀ j, min a b ≤ j → j < q → normAt d j ≠ "\"" := by
  obtain ⟨h1, h2, h3, h4⟩ := quote_scan_some d _ _ _ h
  exact ⟨h1, by omega, h3, h4⟩

theorem scan_up_some (d : Doc) :
    ∀ (fuel i r : Nat), scan_up d i fuel = some r →
      i ≤ r ∧ 0 < r ∧ r < docLen d ∧ normAt d r = "\"" ∧
        ∀ j, i ≤ j → j < r → normAt d j ≠ "\"" := by
  intro fuel
  induction fuel with
  | zero => intro i r h; simp [scan_up] at h
  | succ n ih =>
    intro i r h
    simp only [scan_up] at h
    split at h
    next hcond =>
      split at h
      next hn =>
        obtain rfl : i = r := by simpa using h
        exact ⟨Nat.le_refl i, hcond.1, hcond.2, hn, fun j h1 h2 => by omega⟩
      next hn =>
        obtain ⟨h1, h2, h3, h4, h5⟩ := ih (i + 1) r h
        refine ⟨by omega, h2, h3, h4, fun j hj1 hj2 => ?_⟩
        rcases Nat.eq_or_lt_of_le hj1 with rfl | hj3
        · exact hn
        · exact h5 j hj3 hj2
    next => exact absurd h (by simp)

theorem scan_down_some (d : Doc) :
    ∀ (i r : Nat), scan_down d i = some r →
      0 < r ∧ r ≤ i ∧ r < docLen d ∧ normAt d r = "\"" ∧
        ∀ j, r < j → j ≤ i → normAt d j ≠ "\"" := by
  intro i
  induction i with
  | zero => intro r h; simp [scan_down] at h
  | succ n ih =>
    intro r h
    simp only [scan_down] at h
    split at h
    next hlen =>
      split at h
      next hn =>
        obtain rfl : n + 1 = r := by simpa using h
        exact ⟨by omega, Nat.le_refl _, hlen, hn, fun j h1 h2 => by omega⟩
      next hn =>
        obtain ⟨h1, h2, h3, h4, h5⟩ := ih r h
        refine ⟨h1, by omega, h3, h4, fun j hj1 hj2 => ?_⟩
        rcases Nat.eq_or_lt_of_le hj2 with rfl | hj3
        · exact hn
        · exact h5 j hj1 (by omega)
    next => exact absurd h (by simp)

theorem scan_up_none (d : Doc) :
    ∀ (fuel i : Nat), (∀ j, i ≤ j → j < docLen d → normAt d j ≠ "\"") →
      scan_up d i fuel = none := by
  intro fuel
  induction fuel with
  | zero => intro i _; rfl
  | succ n ih =>
    intro i hq
    simp only [scan_up]
    split
    next hc =>
      rw [if_neg (hq i (Nat.le_refl i) hc.2)]
      exact ih (i + 1) (fun j h1 h2 => hq j (by omega) h2)
    next => rfl

theorem scan_down_none (d : Doc) :
    ∀ (i : Nat), (∀ j, 0 < j → j ≤ i → normAt d j ≠ "\"") →
      scan_down d i = none := by
  intro i
  induction i with
  | zero => intro _; rfl
  | succ n ih =>
    intro hq
    simp only [scan_down]
    split
    next hl =>
      rw [if_neg (hq (n + 1) (by omega) (Nat.le_refl _))]
      exact ih (fun j h1 h2 => hq j h1 (by omega))
    next => rfl

/-- C1: when a quotation mark `q` is found between cue and proposition
head and a matching mark `q2` is found in the direction away from the
cue, the override replaces the span with `[min q q2, max q q2]` and sets
`direct = true` exactly when the proposition head's index lies strictly
between `q` and `q2`; otherwise span and flag keep their prior values.
(The source tests membership in `range(min, max)`, which also admits
`prop = min`, but that case is unreachable: it would require a quotation
mark at `prop` closer to the cue than `q` or `q2`.) -/
theorem c1_quote_override (d : Doc) (cue prop : Nat) (span : Nat × Nat)
    (dr : Bool) (q q2 : Nat)
    (hq : quote_between d cue prop = some q)
    (hq2 : find_matching_quote d q (if cue < prop then 1 else -1) = some q2) :
    prop_override d cue prop span dr =
      if min q q2 < prop ∧ prop < max q q2 then ((min q q2, max q q2), true)
      else (span, dr) := by
  have hqc := quote_between_some d cue prop q hq
  simp only [prop_override, hq, hq2]
  rcases lt_trichotomy cue prop with hlt | heq | hgt
  · have hq2' := hq2
    rw [if_pos hlt] at hq2'
    simp only [find_matching_quote, if_pos rfl] at hq2'
    obtain ⟨hs1, _, _, _, _⟩ := scan_up_some d _ _ _ hq2'
    have hmx : max cue prop = prop := Nat.max_eq_right (Nat.le_of_lt hlt)
    have hq_lt : q < prop := by
      have := hqc.2.1
      omega
    have hmq : min q q2 = q := Nat.min_eq_left (by omega)
    have hiff : (min q q2 ≤ prop ∧ prop < max q q2)
        ↔ (min q q2 < prop ∧ prop < max q q2) := by
      rw [hmq]
      exact ⟨fun ⟨_, h2⟩ => ⟨hq_lt, h2⟩,
        fun ⟨_, h2⟩ => ⟨Nat.le_of_lt hq_lt, h2⟩⟩
    exact if_congr hiff rfl rfl
  · exfalso
    subst heq
    have h1 := hqc.1
    have h2 := hqc.2.1
    simp only [Nat.min_self, Nat.max_self] at h1 h2
    omega
  · have hne : ¬ cue < prop := by omega
    have hq2' := hq2
    rw [if_neg hne] at hq2'
    simp only [find_matching_quote, if_neg (by decide : ¬ (-1 : Int) = 1)]
      at hq2'
    obtain ⟨hr0, hrle, hrlen, hrnorm, _⟩ := scan_down_some d _ _ hq2'
    have hq2q : q2 < q := by omega
    have hmq : min q q2 = q2 := Nat.min_eq_right (Nat.le_of_lt hq2q)
    have hMq : max q q2 = q := Nat.max_eq_left (Nat.le_of_lt hq2q)
    have hiff : (min q q2 ≤ prop ∧ prop < max q q2)
        ↔ (min q q2 < prop ∧ prop < max q q2) := by
      rw [hmq, hMq]
      constructor
      · rintro ⟨h1, h2⟩
        rcases Nat.eq_or_lt_of_le h1 with heq2 | h3
        · exfalso
          apply hqc.2.2.2 q2 _ (by omega) hrnorm
          have := Nat.min_le_right cue prop
          omega
        · exact ⟨h3, h2⟩
      · rintro ⟨h1, h2⟩
        exact ⟨Nat.le_of_lt h1, h2⟩
    exact if_congr hiff rfl rfl

/-- Witness for C1: the specification's scenario (cue at 5, proposition
head at 8, quotation marks at 6 and 10) yields span `[6, 10]` with
`direct = true`, overriding the default subtree span `[7, 9]`. -/
theorem c1_quote_override_witness :
    quote_between exDoc1 5 8 = some 6
    ∧ find_matching_quote exDoc1 6 (if 5 < 8 then 1 else -1) = some 10
    ∧ prop_override exDoc1 5 8 (7, 9) false = ((6, 10), true)
    ∧ extract_proposition exDoc1 ⟨5, 0, 8, "quote-1"⟩
        = Except.ok ((6, 10), true) := by
  refine ⟨by decide, by decide, ?_, by decide⟩
  rw [c1_quote_override exDoc1 5 8 (7, 9) false 6 10 (by decide) (by decide)]
  decide

/-- C10: the matching-quote search never returns token index 0 (the
loop condition `i > 0` excludes it); if every quotation mark in the
search direction away from the cue sits at index 0, the search returns
nothing and the override leaves span and direct flag unchanged. -/
theorem c10_never_index_zero (d : Doc) (start : Nat) (dir : Int)
    (cue prop : Nat) (span : Nat × Nat) (dr : Bool) (q : Nat) :
    (∀ r, find_matching_quote d start dir = some r → 0 < r)
    ∧ ((∀ j, normAt d j = "\"" → j ≠ 0 → in_scan_dir start dir j = false) →
        find_matching_quote d start dir = none)
    ∧ (quote_between d cue prop = some q →
        find_matching_quote d q (if cue < prop then 1 else -1) = none →
        prop_override d cue prop span dr = (span, dr)) := by
  refine ⟨?_, ?_, ?_⟩
  · intro r hr
    unfold find_matching_quote at hr
    split at hr
    · exact (scan_up_some d _ _ _ hr).2.1
    · exact (scan_down_some d _ _ hr).1
  · intro hj
    unfold find_matching_quote
    split
    next hdir =>
      apply scan_up_none
      intro j h1 h2 hn
      have := hj j hn (by omega)
      rw [in_scan_dir, if_pos hdir] at this
      simp at this
      omega
    next hdir =>
      apply scan_down_none
      intro j h1 h2 hn
      have := hj j hn (by omega)
      rw [in_scan_dir, if_neg hdir] at this
      simp at this
      omega
  · intro hq hnone
    simp only [prop_override, hq, hnone]

/-- Witness for C10: in `exDoc10`, scanning downward from the mark at
index 2, the only further quotation mark sits at token 0, so no match is
found and the override does not fire. -/
theorem c10_never_index_zero_witness :
    find_matching_quote exDoc10 2 (-1) = none
    ∧ prop_override exDoc10 3 1 (1, 1) false = ((1, 1), false) := by
  have honly : ∀ j, normAt exDoc10 j = "\"" → j ≠ 0 →
      in_scan_dir 2 (-1) j = false := by
    intro j hn h0
    have hj4 : j < 4 := by
      by_contra hge
      rw [normAt_ge_len exDoc10 j (by simpa [exDoc10, docLen] using hge)] at hn
      exact absurd hn (by decide)
    interval_cases j
    · exact absurd rfl h0
    · exact absurd hn (by decide)
    · decide
    · exact absurd hn (by decide)
  refine ⟨?_, ?_⟩
  · exact (c10_never_index_zero exDoc10 2 (-1) 3 1 (1, 1) false 2).2.1 honly
  · refine (c10_never_index_zero exDoc10 2 (-1) 3 1 (1, 1) false 2).2.2
      (by decide) ?_
    have h1 : ((if 3 < 1 then 1 else -1 : Int)) = -1 := by decide
    rw [h1]
    exact (c10_never_index_zero exDoc10 2 (-1) 3 1 (1, 1) false 2).2.1 honly

/-- C4: `extract_proposition` fails (with the source's
`'No proposition extracted'` error) precisely when the step-1 candidate
token set is empty, and such a failure is per-candidate and non-fatal:
a quote match whose extraction fails contributes nothing and the
remaining matches of the document are processed exactly as if it were
absent. -/
theorem c4_empty_proposition :
    (∀ (d : Doc) (m : QuoteMatch),
        extract_proposition d m = Except.error "No proposition extracted"
          ↔ proposition_tokens d m = [])
    ∧ (∀ (d : Doc) (lex : Lexicon) (pre post : List RawMatch) (pid : String)
        (t0 t1 t2 : Nat) (rest : List Nat) (e : String),
        starts_with pid ("quote") = true →
        extract_proposition d ⟨t0, t1, t2, pid⟩ = Except.error e →
        find_matches d lex (pre ++ ⟨pid, t0 :: t1 :: t2 :: rest⟩ :: post)
          = find_matches d lex (pre ++ post)) := by
  constructor
  · intro d m
    unfold extract_proposition
    cases h : proposition_tokens d m with
    | nil => simp
    | cons a l => simp
  · intro d lex pre post pid t0 t1 t2 rest e hs herr
    have hstep : ∀ s, find_matches_step d lex s ⟨pid, t0 :: t1 :: t2 :: rest⟩
        = s := by
      intro s
      unfold find_matches_step
      simp only [hs, if_true, herr]
    unfold find_matches
    rw [List.foldl_append, List.foldl_append, List.foldl_cons, hstep]

/-- Witness for C4: on `exDoc4` the candidate set of the match
`(cue 0, author 2, prop 1)` is empty, extraction fails, and dropping
that match from a match list leaves `find_matches` unchanged. -/
theorem c4_empty_proposition_witness :
    (extract_proposition exDoc4 ⟨0, 2, 1, "quote-9"⟩
        = Except.error "No proposition extracted"
      ↔ proposition_tokens exDoc4 ⟨0, 2, 1, "quote-9"⟩ = [])
    ∧ find_matches exDoc4 exLex
        ([] ++ ⟨"quote-9", 0 :: 2 :: 1 :: []⟩ :: [⟨"name", [0]⟩])
      = find_matches exDoc4 exLex ([] ++ [⟨"name", [0]⟩]) := by
  constructor
  · exact c4_empty_proposition.1 exDoc4 ⟨0, 2, 1, "quote-9"⟩
  · exact c4_empty_proposition.2 exDoc4 exLex [] [⟨"name", [0]⟩] "quote-9"
      0 2 1 [] "No proposition extracted" (by decide) (by decide)

/-- C2 counterexample: on `exDoc` the pipeline emits the continuation
quote `exCont`, whose stored cue (token 3, the first token of its own
paragraph) lies inside its proposition span `[3, 5]` while its
proposition head is `none`, so the claimed invariant fails for it. -/
theorem c2_counterexample :
    exCont ∈ (find_quotes_doc exDoc exLex exMs true).1
    ∧ cue_in_span_ok exDoc exCont = false := by decide

/-- C2 (amended): for a direct pattern match, the step-1 candidate token
set contains the cue token only in the object-clause case, i.e. only
when the proposition head's own head is the cue.  (The positional hull
`[min, max]` of the candidate set, its later extensions, and the
continuation quotes — which store their span's first token as cue — may
still cover the cue's index.) -/
theorem c2_cue_not_candidate (d : Doc) (m : QuoteMatch)
    (h : m.cue ∈ proposition_tokens d m) : headAt d m.prop_head = m.cue := by
  unfold proposition_tokens at h
  rw [List.mem_filter] at h
  have h2 := h.2
  simp only [decide_eq_true_eq] at h2
  rcases h2 with ⟨hnot, _⟩ | heq
  · exfalso
    apply hnot
    unfold inSubtree
    rw [List.any_eq_true]
    exact ⟨0, List.mem_range.mpr (Nat.succ_pos _), by simp [headIter]⟩
  · exact heq

/-- Witness for C2's amended statement: in `exDoc2b` the proposition
head 2 and the cue 1 form a head cycle, the cue is among the candidate
tokens, and indeed the proposition head's head is the cue. -/
theorem c2_cue_not_candidate_witness :
    headAt exDoc2b 2 = 1 :=
  c2_cue_not_candidate exDoc2b ⟨1, 0, 2, "quote-1"⟩ (by decide)

theorem np_scan_start_some (d : Doc) (tg : Int) :
    ∀ (fuel i r : Nat), np_scan_start d tg i fuel = some r →
      i ≤ r ∧ r < i + fuel ∧ str_to_int (parIdAt d r) = some tg := by
  intro fuel
  induction fuel with
  | zero => intro i r h; simp [np_scan_start] at h
  | succ n ih =>
    intro i r h
    simp only [np_scan_start] at h
    split at h
    · exact absurd h (by simp)
    next p hp =>
      split at h
      next hpt =>
        obtain rfl : i = r := by simpa using h
        exact ⟨Nat.le_refl _, by omega, by rw [hp, hpt]⟩
      next hpt =>
        obtain ⟨h1, h2, h3⟩ := ih (i + 1) r h
        exact ⟨by omega, by omega, h3⟩

theorem np_scan_end_ge (d : Doc) (tg : Int) :
    ∀ (fuel j r : Nat), np_scan_end d tg j fuel = some r → j ≤ r := by
  intro fuel
  induction fuel with
  | zero =>
    intro j r h
    obtain rfl : j = r := by simpa [np_scan_end] using h
    exact Nat.le_refl _
  | succ n ih =>
    intro j r h
    simp only [np_scan_end] at h
    split at h
    · exact absurd h (by simp)
    next p hp =>
      split at h
      · have := ih (j + 1) r h
        omega
      · obtain rfl : j = r := by simpa using h
        exact Nat.le_refl _

theorem next_paragraph_some (d : Doc) (t i j : Nat)
    (h : next_paragraph d t = some (i, j)) : t ≤ i ∧ i < j := by
  unfold next_paragraph at h
  split at h
  · exact absurd h (by simp)
  next prev hprev =>
    split at h
    · exact absurd h (by simp)
    next i0 hstart =>
      split at h
      · exact absurd h (by simp)
      next j0 hend =>
        have hinj := Option.some.inj h
        obtain rfl : i = i0 := (congrArg Prod.fst hinj).symm
        obtain rfl : j = j0 := (congrArg Prod.snd hinj).symm
        obtain ⟨h1, h2, h3⟩ := np_scan_start_some d (prev + 1) _ _ _ hstart
        have hilen : i < docLen d := by omega
        have hfc : docLen d - i = (docLen d - i - 1) + 1 := by omega
        rw [hfc] at hend
        simp only [np_scan_end, h3, if_pos rfl] at hend
        have := np_scan_end_ge d (prev + 1) _ _ _ hend
        omega

theorem cont_for_some (d : Doc) (cl : Nat → Bool) (q c : Quote)
    (h : cont_for d cl q = some c) :
    ∃ i j, next_paragraph d q.prop.2 = some (i, j)
      ∧ c = ⟨q.authorIds, (i, j - 1), true, some i, none, q.authorHead,
          "paragraph"⟩
      ∧ (List.range' i (j - i)).any cl = false := by
  unfold cont_for at h
  split at h
  · exact absurd h (by simp)
  next i j hnp =>
    split at h
    next s1 s2 hs1 hs2 =>
      split at h
      next hcond => exact ⟨i, j, hnp, (Option.some.inj h).symm, hcond.2.2⟩
      next => exact absurd h (by simp)
    next => exact absurd h (by simp)

/-- C5: every continuation quote's proposition span is token-for-token
disjoint from every proposition span in the frozen set of directly
matched quotes the pass started from, because the claimed-token set is
computed once over that set and the guard rejects any overlap. -/
theorem c5_continuation_disjoint (d : Doc) (qs : List Quote) (c : Quote)
    (hc : c ∈ quotes_from_paragraphs d qs) :
    ∀ q ∈ qs, ∀ k, c.prop.1 ≤ k → k ≤ c.prop.2 →
      ¬ (q.prop.1 ≤ k ∧ k ≤ q.prop.2) := by
  unfold quotes_from_paragraphs at hc
  rw [List.mem_filterMap] at hc
  obtain ⟨q0, hq0, hcf⟩ := hc
  obtain ⟨i, j, hnp, hceq, hany⟩ := cont_for_some d _ q0 c hcf
  obtain ⟨hti, hij⟩ := next_paragraph_some d _ i j hnp
  subst hceq
  intro q hq k hk1 hk2 hcontr
  have hk1' : i ≤ k := hk1
  have hk2' : k ≤ j - 1 := hk2
  rw [List.any_eq_false] at hany
  exact hany k (List.mem_range'_1.mpr ⟨hk1', by omega⟩)
    (by
      unfold quote_token_set
      rw [List.any_eq_true]
      exact ⟨q, hq, by simpa using hcontr⟩)

/-- Witness for C5: token 4 of the continuation quote on `exDoc` does
not belong to the direct quote's span. -/
theorem c5_continuation_disjoint_witness :
    ¬ (exQ0.prop.1 ≤ 4 ∧ 4 ≤ exQ0.prop.2) :=
  c5_continuation_disjoint exDoc [exQ0] exCont (by decide) exQ0 (by decide)
    4 (by decide) (by decide)

/-- C6: a continuation quote carries the very author ids of its source
quote (the heap cells are shared, not copied), is marked direct, and
therefore renders the same author strings as its source under any state
of the author heap — in particular after the resolver rewrites them. -/
theorem c6_shared_authors (d : Doc) (qs : List Quote) (c : Quote)
    (hc : c ∈ quotes_from_paragraphs d qs) :
    ∃ q, q ∈ qs ∧ c.authorIds = q.authorIds ∧ c.direct = true
      ∧ ∀ heap : List (List Nat),
          render_authors d heap c = render_authors d heap q := by
  unfold quotes_from_paragraphs at hc
  rw [List.mem_filterMap] at hc
  obtain ⟨q0, hq0, hcf⟩ := hc
  obtain ⟨i, j, _, hceq, _⟩ := cont_for_some d _ q0 c hcf
  subst hceq
  exact ⟨q0, hq0, rfl, rfl, fun heap => rfl⟩

/-- Witness for C6: the continuation quote on `exDoc` shares `exQ0`'s
author ids and renders identically under every heap. -/
theorem c6_shared_authors_witness :
    ∃ q, q ∈ [exQ0] ∧ exCont.authorIds = q.authorIds ∧ exCont.direct = true
      ∧ ∀ heap : List (List Nat),
          render_authors exDoc heap exCont = render_authors exDoc heap q :=
  c6_shared_authors exDoc [exQ0] exCont (by decide)

/-- C3: the pronoun key reflects the most recent binder of either kind.
Appending a name event rebinds it to that name regardless of earlier
resolutions, and appending a quote event whose (single) author resolves
rebinds it to the resolved list regardless of earlier names — so the
binding tracks the most recently resolved author when a resolution is
more recent, and the most recent name mention otherwise. -/
theorem c3_pronoun_binding (d : Doc) (st : RState) (evs : List (Nat × REv))
    (k k2 : Nat) (n : List Nat) (q : Quote) (aid : Nat) (v : List Nat) :
    (runEvents d st (evs ++ [(k, REv.name n)])).map.lookup "hän" = some n
    ∧ (q.authorIds = [aid] →
        (runEvents d st evs).map.lookup
            (author_to_str d ((runEvents d st evs).heap.getD aid []))
          = some v →
        (runEvents d st (evs ++ [(k2, REv.quote q)])).map.lookup "hän"
          = some v) := by
  constructor
  · unfold runEvents
    rw [List.foldl_append, List.foldl_cons, List.foldl_nil]
    exact lookup_mapSet_self _ _ _
  · intro hids hlook
    unfold runEvents at hlook ⊢
    rw [List.foldl_append, List.foldl_cons, List.foldl_nil]
    show ((q.authorIds).foldl (resolve_author d) _).map.lookup "hän" = some v
    rw [hids, List.foldl_cons, List.foldl_nil]
    unfold resolve_author
    rw [hlook]
    exact lookup_mapSet_self _ _ _

/-- Witness for C3: on `exDoc3`, after a name event for token 1 the
pronoun key is bound to `[1]`; a later quote whose author renders to
that name's key rebinds the pronoun to the resolved list `[1]`. -/
theorem c3_pronoun_binding_witness :
    (runEvents exDoc3 ⟨[[0]], []⟩
        ([(0, REv.name [1])] ++ [(2, REv.quote exQ3)])).map.lookup "hän"
      = some [1]
    ∧ (runEvents exDoc3 ⟨[[0]], []⟩ ([] ++ [(0, REv.name [1])])).map.lookup
        "hän" = some [1] := by
  constructor
  · exact (c3_pronoun_binding exDoc3 ⟨[[0]], []⟩ [(0, REv.name [1])] 0 2 [1]
      exQ3 0 [1]).2 (by decide) (by decide)
  · exact (c3_pronoun_binding exDoc3 ⟨[[0]], []⟩ [] 0 0 [1] exQ3 0 [1]).1

/-- C7 counterexample: on `exDoc7` (whose token 2 has the lemma
`"a b"`, a legal value of the CSV lemma column) the author `[3]`
resolves in the first pass to the name `[0, 1]`, which renders as
`"a b"` — the key of a later name mention — so a second resolver pass
rewrites it again, to `[2]`: the resolver is not idempotent. -/
theorem c7_counterexample :
    (resolve_authors exDoc7
        (resolve_authors exDoc7 [[3]] [exQ7] exNames7).heap
        [exQ7] exNames7).heap
      ≠ (resolve_authors exDoc7 [[3]] [exQ7] exNames7).heap := by decide

theorem resolve_authors_frozen_fold (d : Doc) (H : List (List Nat))
    (U : List String) (st : RState)
    (hmap : ∀ k v, st.map.lookup k = some v → k ∈ U)
    (hheap : st.heap = H) :
    ∀ (aids : List Nat),
      (∀ aid ∈ aids, author_to_str d (H.getD aid []) ∉ U) →
      aids.foldl (resolve_author d) st = st := by
  intro aids
  induction aids with
  | nil => intro _; rfl
  | cons a rest ih =>
    intro ha
    rw [List.foldl_cons]
    have hone : resolve_author d st a = st := by
      unfold resolve_author
      cases hl : List.lookup (author_to_str d (st.heap.getD a [])) st.map with
      | none => rfl
      | some w =>
        exfalso
        apply ha a (List.mem_cons_self a rest)
        rw [← hheap]
        exact hmap _ _ hl
    rw [hone]
    exact ih (fun aid haid => ha aid (List.mem_cons_of_mem _ haid))

theorem run_events_frozen (d : Doc) (H : List (List Nat)) (U : List String)
    (hU : "hän" ∈ U) :
    ∀ (evs : List (Nat × REv)) (st : RState),
      (∀ ev ∈ evs,
        (∀ n, ev.2 = REv.name n → lemmaAt d (n.getLastD 0) ∈ U)
        ∧ (∀ q, ev.2 = REv.quote q → ∀ aid ∈ q.authorIds,
            author_to_str d (H.getD aid []) ∉ U)) →
      st.heap = H → (∀ k v, st.map.lookup k = some v → k ∈ U) →
      (runEvents d st evs).heap = H := by
  intro evs
  induction evs with
  | nil => intro st _ hh _; exact hh
  | cons ev rest ih =>
    intro st hev hh hm
    have hstep : runEvents d st (ev :: rest)
        = runEvents d (resolve_step d st ev) rest := by
      unfold runEvents
      rw [List.foldl_cons]
    rw [hstep]
    obtain ⟨k0, e0⟩ := ev
    cases e0 with
    | name n =>
      apply ih _ (fun e he => hev e (List.mem_cons_of_mem _ he))
      · exact hh
      · intro k v hkv
        rcases lookup_mapSet_cases _ _ _ _ _ hkv with rfl | h2
        · exact hU
        · rcases lookup_mapSet_cases _ _ _ _ _ h2 with rfl | h3
          · exact (hev (k0, REv.name n) (List.mem_cons_self _ _)).1 n rfl
          · exact hm _ _ h3
    | quote q =>
      have hfr : resolve_step d st (k0, REv.quote q) = st :=
        resolve_authors_frozen_fold d H U st hm hh q.authorIds
          ((hev (k0, REv.quote q) (List.mem_cons_self _ _)).2 q rfl)
      rw [hfr]
      exact ih st (fun e he => hev e (List.mem_cons_of_mem _ he)) hh hm

/-- C7 (amended): re-running the resolver changes nothing provided every
author list it would see renders to a string that is neither any name
mention's last-token lemma nor the pronoun key `"hän"` — in particular
after a first pass whose resolved authors all render to full multi-token
names.  Without that proviso a second pass can rewrite authors again
(see the counterexample). -/
theorem c7_resolver_stable (d : Doc) (H : List (List Nat))
    (quotes : List Quote) (names : List (List Nat))
    (h : ∀ q ∈ quotes, ∀ aid ∈ q.authorIds,
        author_to_str d (H.getD aid [])
            ∉ names.map (fun n => lemmaAt d (n.getLastD 0))
          ∧ author_to_str d (H.getD aid []) ≠ "hän") :
    (resolve_authors d H quotes names).heap = H := by
  unfold resolve_authors
  apply run_events_frozen d H
      (names.map (fun n => lemmaAt d (n.getLastD 0)) ++ ["hän"]) (by simp)
  · intro ev hev
    rw [List.mem_insertionSort, List.mem_append] at hev
    constructor
    · intro n hn
      rcases hev with hq | hn2
      · rw [List.mem_map] at hq
        obtain ⟨q1, _, rfl⟩ := hq
        exact absurd hn (by simp)
      · rw [List.mem_map] at hn2
        obtain ⟨n1, hn1, rfl⟩ := hn2
        have he : n1 = n := by
          have := hn
          simp only [] at this
          injection this
        rw [List.mem_append]
        left
        rw [List.mem_map]
        exact ⟨n1, hn1, by rw [he]⟩
    · intro q1 hq1 aid haid
      rcases hev with hq | hn2
      · rw [List.mem_map] at hq
        obtain ⟨q2, hq2, rfl⟩ := hq
        have he : q2 = q1 := by
          have := hq1
          simp only [] at this
          injection this
        obtain ⟨ha, hb⟩ := h q1 (he ▸ hq2) aid haid
        intro hmem
        rw [List.mem_append] at hmem
        rcases hmem with hm1 | hm2
        · exact ha hm1
        · exact hb (by simpa using hm2)
      · rw [List.mem_map] at hn2
        obtain ⟨n1, _, rfl⟩ := hn2
        exact absurd hq1 (by simp)
  · rfl
  · intro k v hk
    simp [List.lookup] at hk

/-- Witness for the amended C7: after resolving to the two-token name
`[0, 1]` (rendering `"maija virtanen"`, which is no key), a second
resolver pass leaves the heap unchanged. -/
theorem c7_resolver_stable_witness :
    (resolve_authors exDoc7b [[0, 1]] [exQ7b] [[0, 1]]).heap = [[0, 1]] :=
  c7_resolver_stable exDoc7b [[0, 1]] [exQ7b] [[0, 1]] (by decide)

/-- C8 counterexample: renaming the paragraph identifiers of `exDoc`
injectively (`"1" ↦ "1"`, `"2" ↦ "5"`) changes the set of detected
quotes — the continuation quote disappears, because continuation
detection compares the identifiers' integer values (`int(id) + 1`), so
paragraph and sentence identifiers are not opaque to the algorithm. -/
theorem c8_counterexample :
    (find_quotes_doc exDoc exLex exMs true).1.map (fun q => q.prop)
      ≠ (find_quotes_doc exDocRen exLex exMs true).1.map (fun q => q.prop)
    := by decide

theorem docLen_setWordId (d : Doc) (w : List String) :
    docLen (setWordId d w) = docLen d := rfl

theorem depAt_setWordId (d : Doc) (w : List String) (i : Nat) :
    depAt (setWordId d w) i = depAt d i := rfl

theorem posAt_setWordId (d : Doc) (w : List String) (i : Nat) :
    posAt (setWordId d w) i = posAt d i := rfl

theorem lemmaAt_setWordId (d : Doc) (w : List String) (i : Nat) :
    lemmaAt (setWordId d w) i = lemmaAt d i := rfl

theorem normAt_setWordId (d : Doc) (w : List String) (i : Nat) :
    normAt (setWordId d w) i = normAt d i := rfl

theorem headAt_setWordId (d : Doc) (w : List String) (i : Nat) :
    headAt (setWordId d w) i = headAt d i := rfl

theorem parIdAt_setWordId (d : Doc) (w : List String) (i : Nat) :
    parIdAt (setWordId d w) i = parIdAt d i := rfl

theorem sentIdAt_setWordId (d : Doc) (w : List String) (i : Nat) :
    sentIdAt (setWordId d w) i = sentIdAt d i := rfl

theorem headIter_setWordId (d : Doc) (w : List String) (t : Nat) :
    ∀ k, headIter (setWordId d w) t k = headIter d t k := by
  intro k
  induction k with
  | zero => rfl
  | succ n ih => rw [headIter, headIter, ih]; rfl

theorem inSubtree_setWordId (d : Doc) (w : List String) (h t : Nat) :
    inSubtree (setWordId d w) h t = inSubtree d h t := by
  simp only [inSubtree, docLen_setWordId, headIter_setWordId]

theorem subtree_setWordId (d : Doc) (w : List String) (h : Nat) :
    subtree (setWordId d w) h = subtree d h := by
  simp only [subtree, docLen_setWordId, inSubtree_setWordId]

theorem proposition_tokens_setWordId (d : Doc) (w : List String)
    (m : QuoteMatch) :
    proposition_tokens (setWordId d w) m = proposition_tokens d m := by
  simp only [proposition_tokens, subtree_setWordId, inSubtree_setWordId]
  rfl

theorem children_of_setWordId (d : Doc) (w : List String) (t : Nat) :
    children_of (setWordId d w) t = children_of d t := rfl

theorem extract_flat_name_aux_setWordId (d : Doc) (w : List String) :
    ∀ (fuel t : Nat),
      extract_flat_name_aux (setWordId d w) fuel t
        = extract_flat_name_aux d fuel t := by
  intro fuel
  induction fuel with
  | zero => intro t; rfl
  | succ n ih =>
    intro t
    simp only [extract_flat_name_aux, children_of_setWordId,
      depAt_setWordId]
    rw [show extract_flat_name_aux (setWordId d w) n
      = extract_flat_name_aux d n from funext ih]

theorem extract_flat_name_setWordId (d : Doc) (w : List String) (t : Nat) :
    extract_flat_name (setWordId d w) t = extract_flat_name d t := by
  simp only [extract_flat_name, docLen_setWordId,
    extract_flat_name_aux_setWordId]

theorem extract_author_setWordId (d : Doc) (w : List String) (lex : Lexicon)
    (t : Nat) :
    extract_author (setWordId d w) lex t = extract_author d lex t := by
  simp only [extract_author, children_of_setWordId, depAt_setWordId,
    posAt_setWordId, lemmaAt_setWordId, extract_flat_name_setWordId]

theorem extract_authors_setWordId (d : Doc) (w : List String) (lex : Lexicon)
    (t : Nat) :
    extract_authors (setWordId d w) lex t = extract_authors d lex t := by
  simp only [extract_authors, children_of_setWordId, depAt_setWordId,
    extract_author_setWordId]
  rw [show extract_author (setWordId d w) lex = extract_author d lex from
    funext (extract_author_setWordId d w lex)]

theorem quote_scan_setWordId (d : Doc) (w : List String) :
    ∀ (fuel i : Nat), quote_scan (setWordId d w) i fuel = quote_scan d i fuel
    := by
  intro fuel
  induction fuel with
  | zero => intro i; rfl
  | succ n ih =>
    intro i
    simp only [quote_scan, ih]
    rfl

theorem quote_between_setWordId (d : Doc) (w : List String) (a b : Nat) :
    quote_between (setWordId d w) a b = quote_between d a b := by
  simp only [quote_between, quote_scan_setWordId]

theorem scan_up_setWordId (d : Doc) (w : List String) :
    ∀ (fuel i : Nat), scan_up (setWordId d w) i fuel = scan_up d i fuel := by
  intro fuel
  induction fuel with
  | zero => intro i; rfl
  | succ n ih =>
    intro i
    simp only [scan_up, docLen_setWordId, ih]
    rfl

theorem scan_down_setWordId (d : Doc) (w : List String) :
    ∀ i, scan_down (setWordId d w) i = scan_down d i := by
  intro i
  induction i with
  | zero => rfl
  | succ n ih =>
    simp only [scan_down, docLen_setWordId, ih]
    rfl

theorem find_matching_quote_setWordId (d : Doc) (w : List String)
    (start : Nat) (dir : Int) :
    find_matching_quote (setWordId d w) start dir
      = find_matching_quote d start dir := by
  simp only [find_matching_quote, docLen_setWordId, scan_up_setWordId,
    scan_down_setWordId]

theorem par_start_aux_setWordId (d : Doc) (w : List String) (pid : String) :
    ∀ t, par_start_aux (setWordId d w) pid t = par_start_aux d pid t := by
  intro t
  induction t with
  | zero => rfl
  | succ n ih =>
    simp only [par_start_aux, ih]
    rfl

theorem find_par_start_setWordId (d : Doc) (w : List String) (t : Nat) :
    find_par_start (setWordId d w) t = find_par_start d t := by
  simp only [find_par_start, par_start_aux_setWordId]
  rfl

theorem prop_override_setWordId (d : Doc) (w : List String) (cue prop : Nat)
    (span : Nat × Nat) (dr : Bool) :
    prop_override (setWordId d w) cue prop span dr
      = prop_override d cue prop span dr := by
  simp only [prop_override, quote_between_setWordId,
    find_matching_quote_setWordId]

theorem extract_proposition_setWordId (d : Doc) (w : List String)
    (m : QuoteMatch) :
    extract_proposition (setWordId d w) m = extract_proposition d m := by
  simp only [extract_proposition, proposition_tokens_setWordId,
    find_par_start_setWordId, prop_override_setWordId]
  rfl

theorem find_matches_step_setWordId (d : Doc) (w : List String)
    (lex : Lexicon) (s : FMState) (r : RawMatch) :
    find_matches_step (setWordId d w) lex s r = find_matches_step d lex s r
    := by
  simp only [find_matches_step, extract_proposition_setWordId,
    extract_authors_setWordId, extract_flat_name_setWordId]

theorem find_matches_setWordId (d : Doc) (w : List String) (lex : Lexicon)
    (ms : List RawMatch) :
    find_matches (setWordId d w) lex ms = find_matches d lex ms := by
  unfold find_matches
  congr 1
  funext s r
  exact find_matches_step_setWordId d w lex s r

theorem np_scan_start_setWordId (d : Doc) (w : List String) (tg : Int) :
    ∀ (fuel i : Nat),
      np_scan_start (setWordId d w) tg i fuel = np_scan_start d tg i fuel := by
  intro fuel
  induction fuel with
  | zero => intro i; rfl
  | succ n ih =>
    intro i
    simp only [np_scan_start, ih]
    rfl

theorem np_scan_end_setWordId (d : Doc) (w : List String) (tg : Int) :
    ∀ (fuel j : Nat),
      np_scan_end (setWordId d w) tg j fuel = np_scan_end d tg j fuel := by
  intro fuel
  induction fuel with
  | zero => intro j; rfl
  | succ n ih =>
    intro j
    simp only [np_scan_end, ih]
    rfl

theorem next_paragraph_setWordId (d : Doc) (w : List String) (t : Nat) :
    next_paragraph (setWordId d w) t = next_paragraph d t := by
  simp only [next_paragraph, docLen_setWordId, np_scan_start_setWordId,
    np_scan_end_setWordId]
  rfl

theorem cont_for_setWordId (d : Doc) (w : List String) (cl : Nat → Bool)
    (q : Quote) :
    cont_for (setWordId d w) cl q = cont_for d cl q := by
  simp only [cont_for, next_paragraph_setWordId]
  rfl

theorem quotes_from_paragraphs_setWordId (d : Doc) (w : List String)
    (qs : List Quote) :
    quotes_from_paragraphs (setWordId d w) qs = quotes_from_paragraphs d qs
    := by
  unfold quotes_from_paragraphs
  congr 1
  funext q
  exact cont_for_setWordId d w _ q

theorem resolve_authors_setWordId (d : Doc) (w : List String)
    (H : List (List Nat)) (qs : List Quote) (ns : List (List Nat)) :
    resolve_authors (setWordId d w) H qs ns = resolve_authors d H qs ns := rfl

theorem find_quotes_doc_setWordId (d : Doc) (w : List String) (lex : Lexicon)
    (ms : List RawMatch) (resolve : Bool) :
    find_quotes_doc (setWordId d w) lex ms resolve
      = find_quotes_doc d lex ms resolve := by
  unfold find_quotes_doc
  simp only [find_matches_setWordId, quotes_from_paragraphs_setWordId,
    resolve_authors_setWordId]

/-- C8 (amended): the corpus word identifiers really are opaque output
strings: replacing the whole `wordId` column changes neither the
detected quotes (spans, author heap, direct flags) nor any emitted
record field other than the `wordId`-derived ones. -/
theorem c8_wordid_opaque (d : Doc) (w : List String) (lex : Lexicon)
    (ms : List RawMatch) (resolve : Bool) :
    find_quotes_doc (setWordId d w) lex ms resolve
        = find_quotes_doc d lex ms resolve
    ∧ (find_quotes_records (setWordId d w) lex ms resolve).map stripWordFields
        = (find_quotes_records d lex ms resolve).map stripWordFields := by
  refine ⟨find_quotes_doc_setWordId d w lex ms resolve, ?_⟩
  unfold find_quotes_records
  rw [find_quotes_doc_setWordId d w lex ms resolve]
  rw [List.map_map, List.map_map]
  rw [show stripWordFields ∘ quote_to_dict (setWordId d w)
        (find_quotes_doc d lex ms resolve).2
      = stripWordFields ∘ quote_to_dict d (find_quotes_doc d lex ms resolve).2
    from funext (fun q => rfl)]

/-- C9: the emitted quotes of a document are the merged direct and
continuation quotes in ascending order of proposition start index, so a
continuation quote is placed by its own span position. -/
theorem c9_emission_order (d : Doc) (lex : Lexicon) (ms : List RawMatch)
    (resolve : Bool) :
    List.Pairwise propLE (find_quotes_doc d lex ms resolve).1
    ∧ (find_quotes_doc d lex ms resolve).1.Perm
        ((find_matches d lex ms).quotes
          ++ quotes_from_paragraphs d (find_matches d lex ms).quotes) := by
  constructor
  · exact List.sorted_insertionSort propLE _
  · exact List.perm_insertionSort propLE _
